import Mathlib

/-!
Verification of the OpenAPI-connector engine: a shallow embedding of the
token manager, the SaaS API client, the OpenAPI loader and the MCP handler,
with theorems settling the specification claims about them.

JavaScript values flowing through the engine are modelled by the `Json`
inductive below; JS truthiness, `Object.assign`, `String(...)` coercion and
first-occurrence `String.prototype.replace` are modelled explicitly.
Machine integers do not overflow in the source (timestamps and second
counts), so `Int` is used directly.
-/

/-- A JSON-ish JavaScript value. Objects are insertion-ordered field lists;
the engine never builds objects with duplicate keys. -/
inductive Json where
  | null : Json
  | bool (b : Bool) : Json
  | num (n : Int) : Json
  | str (s : String) : Json
  | arr (elements : List Json) : Json
  | obj (fields : List (String × Json)) : Json

/-- First binding of a key in an object's field list (JS property lookup;
`none` models `undefined`). -/
def jsonLookup : List (String × Json) → String → Option Json
  | [], _ => none
  | (k, v) :: rest, key => if k == key then some v else jsonLookup rest key

/-- Field access `j[k]` on a JS value: only objects yield fields. -/
def getField : Json → String → Option Json
  | Json.obj fields, k => jsonLookup fields k
  | _, _ => none

/-- JS truthiness of a defined value. -/
def jsTruthy : Json → Bool
  | Json.null => false
  | Json.bool b => b
  | Json.num n => !(n == 0)
  | Json.str s => !(s == "")
  | Json.arr _ => true
  | Json.obj _ => true

/-- JS truthiness where `none` models `undefined`. -/
def jsTruthyOpt : Option Json → Bool
  | none => false
  | some v => jsTruthy v

/-- Property assignment `target[k] = v`: replaces the value in place when the
key exists (keeping its position, as JS objects do) and appends otherwise. -/
def setField : List (String × Json) → String → Json → List (String × Json)
  | [], k, v => [(k, v)]
  | (k2, v2) :: rest, k, v =>
    if k2 == k then (k2, v) :: rest else (k2, v2) :: setField rest k v

/-- The effect of `Object.assign(target, source)` on field lists. -/
def jsAssign (target source : List (String × Json)) : List (String × Json) :=
  source.foldl (fun t kv => setField t kv.fst kv.snd) target

/-- JS `String(v)` coercion for the values the engine stringifies. -/
def jsToString : Json → String
  | Json.null => "null"
  | Json.bool b => if b then "true" else "false"
  | Json.num n => toString n
  | Json.str s => s
  | Json.arr xs => String.intercalate "," (xs.attach.map (fun x => jsToString x.val))
  | Json.obj _ => "[object Object]"
decreasing_by
  have h := List.sizeOf_lt_of_mem x.property
  simp only [Json.arr.sizeOf_spec]
  omega

/-- Whether a character list starts with the pattern. -/
def charsHaveStart : List Char → List Char → Bool
  | [], _ => true
  | _ :: _, [] => false
  | p :: ps, c :: cs => p == c && charsHaveStart ps cs

/-- Whether a character list contains the pattern as a contiguous run. -/
def charsContain : List Char → List Char → Bool
  | [], pat => charsHaveStart pat []
  | c :: rest, pat => charsHaveStart pat (c :: rest) || charsContain rest pat

/-- JS `s.includes(sub)` substring test. -/
def stringIncludes (s sub : String) : Bool :=
  charsContain s.toList sub.toList

/-- Replacement of the first occurrence of a pattern, on character lists
(JS `String.prototype.replace` with a string pattern replaces only the
first occurrence). -/
def replaceFirstAux (pat rep : List Char) : List Char → List Char
  | [] => []
  | c :: rest =>
    if charsHaveStart pat (c :: rest) then rep ++ (c :: rest).drop pat.length
    else c :: replaceFirstAux pat rep rest

/-- JS `s.replace(pat, rep)` for string patterns: first occurrence only. -/
def replaceFirst (s pat rep : String) : String :=
  String.mk (replaceFirstAux pat.toList rep.toList s.toList)

/-- JS `s.startsWith(t)`. -/
def jsStartsWith (s t : String) : Bool :=
  charsHaveStart t.toList s.toList

/-- Splitting on a separator character, on character lists (`cur` holds the
reversed characters of the current segment). JS `"".split(c)` is `[""]`. -/
def splitOnCharAux (sep : Char) (cur : List Char) : List Char → List String
  | [] => [String.mk cur.reverse]
  | c :: rest =>
    if c == sep then String.mk cur.reverse :: splitOnCharAux sep [] rest
    else splitOnCharAux sep (c :: cur) rest

/-- JS `s.split('/')`. -/
def splitSlash (s : String) : List String :=
  splitOnCharAux '/' [] s.toList

/-! ## TokenManager (src/src/lib/token-manager.ts)

The cache is an association list keyed by service name (the `Map`), the
credential-exchange HTTP call is passed in as its observable outcome, and a
returned `Bool` records whether that network request was issued. -/

/-- CachedToken record stored in the token cache (src/src/types/auth.ts). -/
structure CachedToken where
  access_token : String
  token_type : String
  expires_in : Int
  expires_at : Int
deriving Repr, DecidableEq

/-- Parsed JSON body of a credential-exchange response
(`TokenResponse` in src/src/types/auth.ts); absent fields are `none`. -/
structure TokenResponse where
  access_token : Option String
  token : Option String
  token_type : Option String
  expires_in : Option Int
deriving Repr, DecidableEq

/-- JS falsiness of an optional string: absent (`undefined`) or empty. -/
def strFalsy : Option String → Bool
  | none => true
  | some s => s == ""

/-- JS `a || b` on optional strings. -/
def jsOrStr (a b : Option String) : Option String :=
  if strFalsy a then b else a

/-- Lookup in the token cache `Map`. -/
def cacheGet : List (String × CachedToken) → String → Option CachedToken
  | [], _ => none
  | (k, v) :: rest, key => if k == key then some v else cacheGet rest key

/-- The effect of `Map.set`: replace in place or append. -/
def cacheSet : List (String × CachedToken) → String → CachedToken → List (String × CachedToken)
  | [], key, t => [(key, t)]
  | (k, v) :: rest, key, t =>
    if k == key then (k, t) :: rest else (k, v) :: cacheSet rest key t

/-- TokenManager.isTokenValid (token-manager.ts lines 24-28): the
`!token.expires_at` JS-falsiness guard rejects a zero timestamp, then the
expiry check applies a fixed 30000 ms buffer. -/
def isTokenValid (now : Int) (token : CachedToken) : Bool :=
  if token.expires_at == 0 then false
  else decide (now < token.expires_at - 30 * 1000)

/-- TokenManager.requestNewToken (token-manager.ts lines 30-75), applied to
the parsed JSON body of a successful credential-exchange response. The
`data.access_token || data.token` fallback and the `!accessToken` guard use
JS truthiness, as does `data.expires_in || 3600`. Errors carry the
`Failed to obtain access token` wrapper added by the function's catch. -/
def requestNewToken (now : Int) (data : TokenResponse) : Except String CachedToken :=
  let accessToken := jsOrStr data.access_token data.token
  if strFalsy accessToken then
    Except.error "Failed to obtain access token: No access token in response"
  else
    let expiresIn : Int :=
      match data.expires_in with
      | some n => if n == 0 then 3600 else n
      | none => 3600
    Except.ok
      { access_token := accessToken.getD ""
        token_type := (jsOrStr data.token_type (some "Bearer")).getD "Bearer"
        expires_in := expiresIn
        expires_at := now + expiresIn * 1000 }

/-- TokenManager.getValidToken (token-manager.ts lines 12-22) for one call at
time `now`. `fetch` is the outcome `requestNewToken` would produce if the
credential-exchange request were issued. The result carries the returned
token, the cache afterwards, and whether a network request was issued. -/
def getValidToken (now : Int) (cache : List (String × CachedToken)) (service : String)
    (fetch : Except String CachedToken) :
    Except String (String × List (String × CachedToken) × Bool) :=
  match cacheGet cache service with
  | some cached =>
    if isTokenValid now cached then Except.ok (cached.access_token, cache, false)
    else
      match fetch with
      | Except.error e => Except.error e
      | Except.ok t => Except.ok (t.access_token, cacheSet cache service t, true)
  | none =>
    match fetch with
    | Except.error e => Except.error e
    | Except.ok t => Except.ok (t.access_token, cacheSet cache service t, true)

/-! ## Concurrent getValidToken calls (src/src/lib/token-manager.ts, §5)

`getValidToken` runs synchronously from its cache check up to the `await`
inside `requestNewToken` (where the credential-exchange HTTP request has
already been issued), then suspends until that request resolves, and only
then writes the cache. Under `Promise.all` of N calls on one TokenManager,
the JS event loop therefore runs all N synchronous prefixes before any
fetch resolves. The model below executes exactly that schedule: a check
phase (each caller reads the cache and, on a miss, issues its own fetch)
followed by a resolve phase (each pending fetch returns its token, the
caller writes the cache and finishes). `tokens k` is the token string
returned by the k-th issued credential-exchange request. -/

/-- Phase of one concurrent `getValidToken` caller. -/
inductive CallerPhase where
  | ready : CallerPhase
  | fetching (requestIdx : Nat) : CallerPhase
  | finished (token : String) : CallerPhase
deriving Repr, DecidableEq

/-- State shared by the concurrent callers: the (single-service) token
cache entry, the number of credential-exchange requests issued so far, and
each caller's phase. Cached entries are valid in this scenario (fresh
3600 s tokens, no time passes). -/
structure ConcState where
  cache : Option String
  fetchCount : Nat
  callers : List CallerPhase
deriving Repr, DecidableEq

/-- Check phase: each caller in order runs `getValidToken` up to its first
suspension. A cache hit finishes immediately with the cached token; a miss
issues a credential-exchange request (counting it) and suspends. -/
def runChecksAux (cache : Option String) (count : Nat) :
    List CallerPhase → List CallerPhase × Nat
  | [] => ([], count)
  | CallerPhase.ready :: rest =>
    match cache with
    | some t =>
      let (rest2, count2) := runChecksAux cache count rest
      (CallerPhase.finished t :: rest2, count2)
    | none =>
      let (rest2, count2) := runChecksAux cache (count + 1) rest
      (CallerPhase.fetching count :: rest2, count2)
  | p :: rest =>
    let (rest2, count2) := runChecksAux cache count rest
    (p :: rest2, count2)

/-- Resolve phase: each pending fetch resolves in issue order; the caller
stores its own fetched token in the cache (`tokenCache.set`) and returns
it. -/
def runResolvesAux (tokens : Nat → String) (cache : Option String) :
    List CallerPhase → List CallerPhase × Option String
  | [] => ([], cache)
  | CallerPhase.fetching idx :: rest =>
    let (rest2, cache2) := runResolvesAux tokens (some (tokens idx)) rest
    (CallerPhase.finished (tokens idx) :: rest2, cache2)
  | p :: rest =>
    let (rest2, cache2) := runResolvesAux tokens cache rest
    (p :: rest2, cache2)

/-- Event-loop execution of `Promise.all` over `n` `getValidToken` calls on
the same service with an empty cache. -/
def promiseAllRun (tokens : Nat → String) (n : Nat) : ConcState :=
  let (callers1, count1) := runChecksAux none 0 (List.replicate n CallerPhase.ready)
  let (callers2, cache2) := runResolvesAux tokens none callers1
  { cache := cache2, fetchCount := count1, callers := callers2 }

/-! ## SaaSAPIClient (src/unnamed/part_001, saas-client.ts)

`call` is modelled against the stream of HTTP responses the network
delivers for its successive requests; token acquisition and refresh are
assumed to succeed (their failures propagate and are orthogonal to the 401
retry counting). The trace records how many backing-API requests were
issued and how many re-authentication cycles (`handleAuthError`, i.e.
invalidate-and-refresh of the default service) ran. -/

/-- An HTTP response as `call` observes it: `ok` is `response.ok`. -/
inductive HttpRsp where
  | ok (body : String) : HttpRsp
  | err (status : Nat) (statusText : String) (body : String) : HttpRsp
deriving Repr, DecidableEq

/-- Observable trace of one `SaaSAPIClient.call` invocation. -/
structure CallTrace where
  requests : Nat
  refreshes : Nat
  result : Except String String
deriving Repr

/-- SaaSAPIClient.call (saas-client.ts lines 13-73) restricted to its
response handling: on `response.ok` the body is returned; on a 401 with
`authRetryCount < 2` the token is refreshed and the whole call replays with
`authRetryCount + 1`; any other non-ok response raises. Each recursion
consumes the next delivered response. -/
def callAux : List HttpRsp → Nat → CallTrace
  | [], _ => { requests := 0, refreshes := 0, result := Except.error "no response" }
  | HttpRsp.ok body :: _, _ =>
    { requests := 1, refreshes := 0, result := Except.ok body }
  | HttpRsp.err status statusText body :: rest, authRetryCount =>
    if status == 401 && authRetryCount < 2 then
      let t := callAux rest (authRetryCount + 1)
      { requests := 1 + t.requests, refreshes := 1 + t.refreshes, result := t.result }
    else
      { requests := 1, refreshes := 0
        result := Except.error ("API request failed: " ++ toString status ++ " "
          ++ statusText ++ " - " ++ body) }

/-- SaaSAPIClient.call entered from the outside (`authRetryCount = 0`). -/
def saasCall (responses : List HttpRsp) : CallTrace :=
  callAux responses 0

/-- Query-string serialization in SaaSAPIClient.call (lines 18-32):
array values are appended as repeated keys, null values are skipped
(`undefined` cannot occur in a materialized field list). URLSearchParams
percent-encoding is elided; the inputs exercised here are alphanumeric. -/
def buildQueryString (params : List (String × Json)) : String :=
  String.intercalate "&" (params.foldl (fun acc kv =>
    match kv.snd with
    | Json.arr items => acc ++ items.map (fun item => kv.fst ++ "=" ++ jsToString item)
    | Json.null => acc
    | v => acc ++ [kv.fst ++ "=" ++ jsToString v]) [])

/-- URL built by SaaSAPIClient.call (lines 16-32): query parameters are
appended only when `params` is passed and the method is GET. -/
def requestUrl (apiBaseUrl endpoint method : String)
    (params : Option (List (String × Json))) : String :=
  let url := apiBaseUrl ++ endpoint
  match params with
  | some p => if method == "GET" then url ++ "?" ++ buildQueryString p else url
  | none => url

/-! ## OpenAPILoader (src/unnamed/part_002, openapi-loader.ts)

The loaded document and the schemas inside it are `Json` values.
`loadSpec` is modelled after JSON parsing succeeded; `resolveSchema` is
given explicit fuel bounding the recursion depth, with `none` meaning the
recursion exceeds every finite depth (the JS original has no cycle
detection and would recurse until the stack is exhausted). -/

/-- OpenAPILoader.loadSpec validation (openapi-loader.ts lines 18-33),
after file read and JSON parse: `if (!spec.openapi || !spec.paths) throw`.
Both guards are JS truthiness tests on the top-level fields. -/
def loadSpec (doc : Json) : Except String Json :=
  if !jsTruthyOpt (getField doc "openapi") || !jsTruthyOpt (getField doc "paths") then
    Except.error "Invalid OpenAPI specification"
  else
    Except.ok doc

/-- The `schema.$ref` truthiness test of resolveSchema: a string-valued,
non-empty `$ref` field. -/
def refField (schema : Json) : Option String :=
  match getField schema "$ref" with
  | some (Json.str p) => if p == "" then none else some p
  | _ => none

/-- The `schema.allOf` truthiness test of resolveSchema: an array-valued
`allOf` field (the only shape the engine produces or consumes). -/
def allOfField (schema : Json) : Option (List Json) :=
  match getField schema "allOf" with
  | some (Json.arr subs) => some subs
  | _ => none

/-- Reference-path segments: `schema.$ref.split('/')` with the leading
sentinel segment dropped (the walk starts at index 1). -/
def splitRef (p : String) : List String :=
  (splitSlash p).drop 1

/-- The reference walk of resolveSchema (lines 209-214): successive
property lookup through the document; `none` when a segment does not
resolve to an existing node (the JS original then dereferences
`undefined`, an error either way). -/
def walkRef (spec : Json) (parts : List String) : Option Json :=
  parts.foldl (fun acc k => acc.bind (fun j => getField j k)) (some spec)

/-- The merged schema built by the allOf branch:
`{ type: 'object', properties: {...}, required: [...] }`. -/
def mkMerged (props : List (String × Json)) (req : List Json) : Json :=
  Json.obj [("type", Json.str "object"), ("properties", Json.obj props),
            ("required", Json.arr req)]

/-- Sequential combination of the allOf members' resolution results
(lines 219-237): `properties` maps are unioned with `Object.assign`
semantics (later members override earlier ones in place) and `required`
lists are concatenated. A member whose resolution exceeds the fuel or
raises cuts the combination short, as the JS exception would. -/
def combineAllOf : List (Option (Except String Json)) →
    List (String × Json) → List Json → Option (Except String Json)
  | [], props, req => some (Except.ok (mkMerged props req))
  | none :: _, _, _ => none
  | some (Except.error e) :: _, _, _ => some (Except.error e)
  | some (Except.ok r) :: rest, props, req =>
    let props2 := match getField r "properties" with
      | some (Json.obj pf) => jsAssign props pf
      | _ => props
    let req2 := match getField r "required" with
      | some (Json.arr xs) => req ++ xs
      | _ => req
    combineAllOf rest props2 req2

/-- One call frame of OpenAPILoader.resolveSchema (lines 207-240), with
`recur` standing for the recursive call: chase `$ref` through the document,
else merge `allOf` members, else return the schema unchanged. -/
def resolveStep (recur : Json → Option (Except String Json)) (spec schema : Json) :
    Option (Except String Json) :=
  match refField schema with
  | some p =>
    match walkRef spec (splitRef p) with
    | some resolved => recur resolved
    | none => some (Except.error "unresolved reference")
  | none =>
    match allOfField schema with
    | some subs => combineAllOf (subs.map recur) [] []
    | none => some (Except.ok schema)

/-- OpenAPILoader.resolveSchema with a fuel bound on recursion depth:
`none` means the call does not complete within that depth. -/
def resolveSchema : Nat → Json → Json → Option (Except String Json)
  | 0, _, _ => none
  | Nat.succ fuel, spec, schema => resolveStep (resolveSchema fuel spec) spec schema

/-- The resolution of a schema never terminates, at any recursion depth —
the observable behavior of resolveSchema on a cyclic `$ref` chain. -/
def resolveDiverges (spec schema : Json) : Prop :=
  ∀ fuel, resolveSchema fuel spec schema = none

/-! ## MCPHandler (src/src/lib/mcp-handler.ts)

`callTool` mutates the copy of the caller's arguments object, so objects
live in an explicit heap: a list of field lists addressed by index. The
caller's arguments sit at an index of the initial heap; `{ ...args }`
allocates a fresh object; `buildEndpoint` deletes substituted keys from
the object it is handed. `parseJson` is the `JSON.parse` oracle used by
the opportunistic body-value parsing (`none` models a parse failure). -/

/-- Heap of JS objects; references are indices. -/
abbrev JsHeap := List (List (String × Json))

/-- Object read through a reference. -/
def hget (h : JsHeap) (r : Nat) : List (String × Json) :=
  (h[r]?).getD []

/-- In-place object update through a reference. -/
def hset (h : JsHeap) (r : Nat) (o : List (String × Json)) : JsHeap :=
  h.set r o

/-- Allocation of a fresh object (`{ ...args }`). -/
def halloc (h : JsHeap) (o : List (String × Json)) : JsHeap × Nat :=
  (h ++ [o], h.length)

/-- Deletion of a property (`delete params[key]`). -/
def objDelete (o : List (String × Json)) (k : String) : List (String × Json) :=
  o.filter (fun kv => !(kv.fst == k))

/-- Loop body of MCPHandler.buildEndpoint (mcp-handler.ts lines 174-186):
for each key of the params object (snapshot taken by `Object.keys`), if the
endpoint still contains the `{key}` placeholder, substitute the stringified
value (first occurrence) and delete the key from the params object. -/
def buildEndpointAux : List String → JsHeap → Nat → String → JsHeap × String
  | [], h, _, endpoint => (h, endpoint)
  | key :: restKeys, h, r, endpoint =>
    let placeholder := "\x7b" ++ key ++ "\x7d"
    if stringIncludes endpoint placeholder then
      let value := jsonLookup (hget h r) key
      let endpoint2 := replaceFirst endpoint placeholder
        (match value with | some v => jsToString v | none => "undefined")
      let h2 := hset h r (objDelete (hget h r) key)
      buildEndpointAux restKeys h2 r endpoint2
    else
      buildEndpointAux restKeys h r endpoint

/-- MCPHandler.buildEndpoint applied to the object at reference `r`. -/
def buildEndpoint (h : JsHeap) (template : String) (r : Nat) : JsHeap × String :=
  buildEndpointAux ((hget h r).map Prod.fst) h r template

/-- Tool definition fields consulted by callTool (MCPToolDefinition in
src/src/types/mcp.ts); `none` models an absent optional field. -/
structure MCPToolDef where
  name : String
  hasHandler : Bool
  apiEndpoint : Option String
  method : Option String
  contentType : Option String
  pathParams : Option (List String)
  queryParams : Option (List String)
  bodyParams : Option (List String)

/-- Dispatch outcome of callTool. -/
inductive CallOutcome where
  | handlerResult : CallOutcome
  | authDirect : CallOutcome
  | apiCall (endpoint : String) (method : String)
      (params : Option (List (String × Json))) (body : Option Json)
      (headers : Option (List (String × String))) : CallOutcome
  | errNoEndpoint (msg : String) : CallOutcome

/-- JSON-string convenience parsing applied to body values (lines 93-99 and
116-121): strings that look like JSON are parsed, parse failures keep the
original string. -/
def jsonProcess (parseJson : String → Option Json) (v : Json) : Json :=
  match v with
  | Json.str s =>
    if jsStartsWith s "[" || jsStartsWith s "\x7b" then (parseJson s).getD (Json.str s) else v
  | _ => v

/-- The `tool._method || 'GET'` default. -/
def methodOf (tool : MCPToolDef) : String :=
  match tool.method with
  | some m => if m == "" then "GET" else m
  | none => "GET"

/-- Query bucket (lines 80-86): declared query parameters present in the
arguments and not path parameters. -/
def queryBucketOf (tool : MCPToolDef) (args : List (String × Json)) :
    List (String × Json) :=
  match tool.queryParams with
  | none => []
  | some qs =>
    qs.foldl (fun acc param =>
      match jsonLookup args param with
      | some v =>
        if (tool.pathParams.getD []).contains param then acc
        else setField acc param v
      | none => acc) []

/-- Path-parameter names scanned from the endpoint template by the regex
`/\x7b([^\x7d]+)\x7d/g` (line 108): maximal nonempty brace-delimited runs.
The scanner state is `none` outside braces and `some acc` (reversed name
characters) inside. -/
def templateParamsAux : List Char → Option (List Char) → List String
  | [], _ => []
  | c :: rest, none =>
    if c == '{' then templateParamsAux rest (some [])
    else templateParamsAux rest none
  | c :: rest, some acc =>
    if c == '}' then
      if acc.isEmpty then templateParamsAux rest none
      else String.mk acc.reverse :: templateParamsAux rest none
    else templateParamsAux rest (some (c :: acc))

/-- Path-parameter names appearing as placeholders in a template string. -/
def templateParams (template : String) : List String :=
  templateParamsAux template.toList none

/-- Declared-body bucket (lines 88-103): declared body parameters present
in the arguments and not path parameters, with JSON-string processing. -/
def declaredBodyBucket (parseJson : String → Option Json) (tool : MCPToolDef)
    (args : List (String × Json)) : List (String × Json) :=
  match tool.bodyParams with
  | none => []
  | some bs =>
    bs.foldl (fun acc param =>
      match jsonLookup args param with
      | some v =>
        if (tool.pathParams.getD []).contains param then acc
        else setField acc param (jsonProcess parseJson v)
      | none => acc) []

/-- The `Object.entries(args)` loop of the body fallback (lines 111-125):
arguments whose key satisfies `skip` are passed over, the rest are assigned
into the accumulating bucket with `f` applied to the value. -/
def argsFold (skip : String → Bool) (f : Json → Json)
    (acc : List (String × Json)) : List (String × Json) → List (String × Json)
  | [] => acc
  | kv :: rest =>
    if skip kv.fst then argsFold skip f acc rest
    else argsFold skip f (setField acc kv.fst (f kv.snd)) rest

/-- Key predicate of the body fallback: declared path parameters and
placeholders extracted from the endpoint template are skipped. -/
def skipAsPathParam (tool : MCPToolDef) (apiEndpoint : String) (key : String) : Bool :=
  (tool.pathParams.getD []).contains key || (templateParams apiEndpoint).contains key

/-- Body bucket after the fallback (lines 105-126): when no declared body
parameter matched and the method is not GET, every argument that is neither
a declared path parameter nor a template placeholder becomes a body field. -/
def bodyBucketOf (parseJson : String → Option Json) (tool : MCPToolDef)
    (apiEndpoint : String) (args : List (String × Json)) : List (String × Json) :=
  let bucket0 := declaredBodyBucket parseJson tool args
  if bucket0.length == 0 && !(methodOf tool == "GET") then
    argsFold (skipAsPathParam tool apiEndpoint) (jsonProcess parseJson) bucket0 args
  else bucket0

/-- Direct-array body replacement (lines 128-134): an array-valued `body`
key replaces the whole bucket, else an array-valued `fields` key does. -/
def bodyJsonOf (bucket : List (String × Json)) : Json :=
  match jsonLookup bucket "body" with
  | some (Json.arr xs) => Json.arr xs
  | _ =>
    match jsonLookup bucket "fields" with
    | some (Json.arr ys) => Json.arr ys
    | _ => Json.obj bucket

/-- Whether `options.body` is set in the non-GET branch (line 150):
`Object.keys(bodyParams).length > 0 || Array.isArray(bodyParams)`. -/
def bodySelected : Json → Bool
  | Json.arr _ => true
  | Json.obj fields => !fields.isEmpty
  | _ => false

/-- The `tool._contentType || 'application/json'` header value (line 149). -/
def contentTypeHeader (tool : MCPToolDef) : String :=
  match tool.contentType with
  | some c => if c == "" then "application/json" else c
  | none => "application/json"

/-- MCPHandler.callTool (mcp-handler.ts lines 48-159) on a found tool, with
the caller's arguments object at heap reference `rArgs`. Returns the heap
after the call and the dispatch outcome handed to `saasClient.call`. -/
def callTool (parseJson : String → Option Json) (authPath : String) (h : JsHeap)
    (tool : MCPToolDef) (rArgs : Nat) : JsHeap × CallOutcome :=
  if tool.hasHandler then (h, CallOutcome.handlerResult)
  else
    match tool.apiEndpoint with
    | none => (h, CallOutcome.errNoEndpoint (tool.name ++ " has no handler or API endpoint defined"))
    | some apiEndpoint =>
      if apiEndpoint == "" then
        (h, CallOutcome.errNoEndpoint (tool.name ++ " has no handler or API endpoint defined"))
      else
        let method := methodOf tool
        let copied := halloc h (hget h rArgs)
        let built := buildEndpoint copied.fst apiEndpoint copied.snd
        let h2 := built.fst
        let endpoint := built.snd
        let outcome :=
          if endpoint == authPath
              || (stringIncludes tool.name "auth" && stringIncludes tool.name "token") then
            CallOutcome.authDirect
          else
            let argsNow := hget h2 rArgs
            let queryBucket := queryBucketOf tool argsNow
            let bodyJson := bodyJsonOf (bodyBucketOf parseJson tool apiEndpoint argsNow)
            if method == "GET" then
              CallOutcome.apiCall endpoint method (some queryBucket) none none
            else
              let params := if queryBucket.length == 0 then none else some queryBucket
              if tool.contentType == some "multipart/form-data"
                  || jsTruthyOpt (jsonLookup argsNow "file")
                  || jsTruthyOpt (jsonLookup argsNow "data") then
                CallOutcome.apiCall endpoint method params (some bodyJson)
                  (some [("Content-Type", contentTypeHeader tool)])
              else if bodySelected bodyJson then
                CallOutcome.apiCall endpoint method params (some bodyJson) none
              else
                CallOutcome.apiCall endpoint method params none none
        (h2, outcome)

/-! ## Derived definitions and concrete inputs used by the claim theorems -/

/-- Token string stored by a credential-exchange outcome, if any. -/
def storedToken : Except String CachedToken → Option String
  | Except.ok t => some t.access_token
  | Except.error _ => none

/-- Whether an optional JS value is an array. -/
def isArrayValue : Option Json → Bool
  | some (Json.arr _) => true
  | _ => false

/-- Plain flat object schema node `{ type, properties, required }` as the
loader produces and consumes them. -/
def plainSchema (props : List (String × Json)) (req : List String) : Json :=
  Json.obj [("type", Json.str "object"), ("properties", Json.obj props),
            ("required", Json.arr (req.map Json.str))]

/-- Composite schema `{ allOf: [...] }` over plain object members. -/
def allOfSchema (subs : List (List (String × Json) × List String)) : Json :=
  Json.obj [("allOf", Json.arr (subs.map (fun s => plainSchema s.fst s.snd)))]

/-- Properties of the merged allOf schema: `Object.assign` union of the
members' property maps, in member order. -/
def mergedPropsOf (subs : List (List (String × Json) × List String)) :
    List (String × Json) :=
  (subs.map Prod.fst).foldl jsAssign []

/-- Required list of the merged allOf schema, as the specification words
it: the order-preserving concatenation of the members' required lists. -/
def mergedReqOf (subs : List (List (String × Json) × List String)) : List Json :=
  (subs.map (fun s => s.snd.map Json.str)).flatten

/-- Self-referential schema node `A` of a cyclic document. -/
def cyclicRefA : Json := Json.obj [("$ref", Json.str "#/components/schemas/A")]

/-- Document whose schema `A` is a `$ref` to itself. -/
def cyclicSpec : Json :=
  Json.obj [("openapi", Json.str "3.0.0"),
    ("components", Json.obj [("schemas", Json.obj [("A", cyclicRefA)])])]

/-- Schema node referring to `#/defs/B`. -/
def refToB : Json := Json.obj [("$ref", Json.str "#/defs/B")]

/-- Schema node referring to `#/defs/A`. -/
def refToA : Json := Json.obj [("$ref", Json.str "#/defs/A")]

/-- Document with a two-node `$ref` cycle `A → B → A`. -/
def twoCycleSpec : Json :=
  Json.obj [("defs", Json.obj [("A", refToB), ("B", refToA)])]

/-- Document with a version marker and a present-but-empty paths map. -/
def emptyPathsDoc : Json :=
  Json.obj [("openapi", Json.str "3.0.0"), ("paths", Json.obj [])]

/-- A POST tool declaring one query parameter and one body parameter. -/
def c2tool : MCPToolDef :=
  { name := "create_user", hasHandler := false, apiEndpoint := some "/users",
    method := some "POST", contentType := none, pathParams := some [],
    queryParams := some ["filter"], bodyParams := some ["name"] }

/-- A POST tool with no declared parameter metadata at all. -/
def c6tool : MCPToolDef :=
  { name := "add_fields", hasHandler := false, apiEndpoint := some "/items",
    method := some "POST", contentType := none, pathParams := none,
    queryParams := none, bodyParams := none }

/-- A POST tool with a path placeholder and no declared body parameters. -/
def c6amendTool : MCPToolDef :=
  { name := "update_thing", hasHandler := false, apiEndpoint := some "/things/\x7bid\x7d",
    method := some "POST", contentType := none, pathParams := none,
    queryParams := none, bodyParams := none }

/-- A GET tool with a path placeholder, used to exercise placeholder
substitution and deletion. -/
def c10tool : MCPToolDef :=
  { name := "get_item", hasHandler := false, apiEndpoint := some "/items/\x7bid\x7d",
    method := some "GET", contentType := none, pathParams := some ["id"],
    queryParams := some ["note"], bodyParams := none }

/-- A cached token expiring at 100000 ms. -/
def demoCachedToken : CachedToken :=
  { access_token := "tok", token_type := "Bearer", expires_in := 3600,
    expires_at := 100000 }

/-- Two allOf members with disjoint property names. -/
def demoSubs : List (List (String × Json) × List String) :=
  [([("a", Json.num 1)], ["a"]), ([("b", Json.num 2)], ["b"])]

/-! ## Claim theorems -/

/-- C1 counterexample: with three consecutive 401 responses, `call` issues a
third backing-API request and runs a second re-authentication cycle — the
claim's "exactly one re-authentication cycle … without issuing a third
request" is false on the code (`authRetryCount < 2` allows two retries). -/
theorem saasCall_second_401_retries_again :
    (saasCall [HttpRsp.err 401 "Unauthorized" "x", HttpRsp.err 401 "Unauthorized" "x",
      HttpRsp.err 401 "Unauthorized" "x"]).requests = 3 ∧
    (saasCall [HttpRsp.err 401 "Unauthorized" "x", HttpRsp.err 401 "Unauthorized" "x",
      HttpRsp.err 401 "Unauthorized" "x"]).refreshes = 2 :=
  ⟨rfl, rfl⟩

/-- C1 (amended): a 401 triggers a re-authentication cycle and a replay
while fewer than two retries have happened: up to two cycles and two
replays; a third consecutive 401 is surfaced as a hard failure with no
fourth request, and a success after one 401 is returned after exactly one
refresh and one replay. -/
theorem saasCall_at_most_two_auth_retries (t1 t2 t3 b1 b2 b3 body : String)
    (rest rest2 : List HttpRsp) :
    saasCall (HttpRsp.err 401 t1 b1 :: HttpRsp.err 401 t2 b2 ::
        HttpRsp.err 401 t3 b3 :: rest) =
      { requests := 3, refreshes := 2,
        result := Except.error ("API request failed: 401 " ++ t3 ++ " - " ++ b3) } ∧
    saasCall (HttpRsp.err 401 t1 b1 :: HttpRsp.ok body :: rest2) =
      { requests := 2, refreshes := 1, result := Except.ok body } := by
  constructor <;> rfl

/-- C7 counterexample: a document with a version marker and a
present-but-empty `paths` map is accepted by loadSpec, not rejected — `{}`
is truthy in JS, so `!spec.paths` does not fire. -/
theorem loadSpec_accepts_empty_paths :
    loadSpec emptyPathsDoc = Except.ok emptyPathsDoc ∧
    getField emptyPathsDoc "paths" = some (Json.obj []) :=
  ⟨rfl, rfl⟩

/-- C7 (amended): loading fails exactly when the document's top-level
`openapi` value or its top-level `paths` value is absent or JS-falsy; a
present-but-empty `paths` object is truthy and therefore accepted. -/
theorem loadSpec_rejects_iff (doc : Json) :
    loadSpec doc = Except.error "Invalid OpenAPI specification" ↔
      (jsTruthyOpt (getField doc "openapi") = false ∨
        jsTruthyOpt (getField doc "paths") = false) := by
  unfold loadSpec
  by_cases h1 : jsTruthyOpt (getField doc "openapi") <;>
    by_cases h2 : jsTruthyOpt (getField doc "paths") <;>
      simp [h1, h2]

/-- C5 counterexample: a response carrying `expires_in: 0` (present, not
absent) is given the 3600 s default — the claim's "defaults to 3600 exactly
when absent" and its expiry formula `now + expires_in*1000 = 0` are false
at this input, where the code stores `expires_at = 3600000`. -/
theorem requestNewToken_expires_in_zero :
    requestNewToken 0
        { access_token := some "t", token := none, token_type := none,
          expires_in := some 0 } =
      Except.ok
        { access_token := "t", token_type := "Bearer", expires_in := 3600,
          expires_at := 3600000 } ∧
    (3600000 : Int) ≠ 0 + 0 * 1000 :=
  ⟨rfl, by decide⟩

/-- C5 (amended): the stored token is `access_token` when present and
non-empty, else `token` when present and non-empty; a response with neither
a truthy `access_token` nor a truthy `token` is a hard failure; every
stored credential satisfies `expires_at = now + expires_in*1000`, where the
effective `expires_in` is the response's value when present and non-zero
and 3600 when absent or zero (JS falsiness). -/
theorem requestNewToken_spec (now : Int) (data : TokenResponse) :
    (∀ s, data.access_token = some s → s ≠ "" →
      storedToken (requestNewToken now data) = some s) ∧
    (∀ t, strFalsy data.access_token = true → data.token = some t → t ≠ "" →
      storedToken (requestNewToken now data) = some t) ∧
    (strFalsy data.access_token = true → strFalsy data.token = true →
      requestNewToken now data =
        Except.error "Failed to obtain access token: No access token in response") ∧
    (∀ c, requestNewToken now data = Except.ok c →
      c.expires_at = now + c.expires_in * 1000 ∧
      ((data.expires_in = none ∨ data.expires_in = some 0) → c.expires_in = 3600) ∧
      (∀ n, data.expires_in = some n → n ≠ 0 → c.expires_in = n)) := by
  obtain ⟨a, tk, tt, ei⟩ := data
  refine ⟨?_, ?_, ?_, ?_⟩
  · rintro s rfl hne
    simp [requestNewToken, jsOrStr, strFalsy, hne, storedToken]
  · rintro t hfa rfl hne
    cases a with
    | none => simp [requestNewToken, jsOrStr, strFalsy, hne, storedToken]
    | some s =>
      simp only [strFalsy] at hfa
      rw [beq_iff_eq] at hfa
      subst hfa
      simp [requestNewToken, jsOrStr, strFalsy, hne, storedToken]
  · intro hfa hft
    cases a with
    | none =>
      cases tk with
      | none => simp [requestNewToken, jsOrStr, strFalsy]
      | some u =>
        simp only [strFalsy] at hft
        rw [beq_iff_eq] at hft
        subst hft
        simp [requestNewToken, jsOrStr, strFalsy]
    | some s =>
      simp only [strFalsy] at hfa
      rw [beq_iff_eq] at hfa
      subst hfa
      cases tk with
      | none => simp [requestNewToken, jsOrStr, strFalsy]
      | some u =>
        simp only [strFalsy] at hft
        rw [beq_iff_eq] at hft
        subst hft
        simp [requestNewToken, jsOrStr, strFalsy]
  · intro c hc
    by_cases hfa : strFalsy (jsOrStr a tk) = true
    · simp [requestNewToken, hfa] at hc
    · simp [requestNewToken, hfa] at hc
      subst hc
      refine ⟨rfl, ?_, ?_⟩
      · rintro (rfl | rfl) <;> rfl
      · rintro n rfl hne
        simp [hne]

/-- C5 witness: the amended theorem applied at a concrete response with a
non-empty `access_token` and `expires_in: 0`. -/
theorem requestNewToken_spec_witness :
    storedToken (requestNewToken 5
      { access_token := some "abc", token := none, token_type := none,
        expires_in := some 0 }) = some "abc" :=
  (requestNewToken_spec 5
    { access_token := some "abc", token := none, token_type := none,
      expires_in := some 0 }).1 "abc" rfl (by decide)

/-- Validity check of the token manager characterized arithmetically: for a
non-negative clock, `isTokenValid` holds exactly when the clock is strictly
below `expires_at` minus the 30000 ms buffer (the `expires_at = 0`
JS-falsiness guard is subsumed, since `now < -30000` is impossible). -/
theorem isTokenValid_iff (now : Int) (t : CachedToken) (hnow : 0 ≤ now) :
    isTokenValid now t = true ↔ now < t.expires_at - 30000 := by
  unfold isTokenValid
  split
  · next h =>
    rw [beq_iff_eq] at h
    constructor
    · intro hf
      exact absurd hf (by simp)
    · intro hlt
      exfalso
      omega
  · rw [decide_eq_true_eq]
    omega

/-- C4: for every service key and non-negative clock, `getValidToken`
returns the cached token with no network request exactly when a cached
entry exists and `now < expiresAt - 30000`; in that case the cache is
untouched and the cached `access_token` is returned, and otherwise the
call goes to the network: a successful fetch is stored and returned with
the network flag set. -/
theorem getValidToken_cache_hit_iff (now : Int) (cache : List (String × CachedToken))
    (service : String) (fetch : Except String CachedToken) (hnow : 0 ≤ now) :
    ((∃ tok c2, getValidToken now cache service fetch = Except.ok (tok, c2, false)) ↔
      (∃ t, cacheGet cache service = some t ∧ now < t.expires_at - 30000)) ∧
    (∀ t, cacheGet cache service = some t → now < t.expires_at - 30000 →
      getValidToken now cache service fetch = Except.ok (t.access_token, cache, false)) ∧
    ((¬ ∃ t, cacheGet cache service = some t ∧ now < t.expires_at - 30000) →
      ∀ t, fetch = Except.ok t →
        getValidToken now cache service fetch =
          Except.ok (t.access_token, cacheSet cache service t, true)) := by
  refine ⟨⟨?_, ?_⟩, ?_, ?_⟩
  · rintro ⟨tok, c2, hok⟩
    cases hc : cacheGet cache service with
    | none =>
      exfalso
      cases fetch with
      | error e => simp [getValidToken, hc] at hok
      | ok t => simp [getValidToken, hc] at hok
    | some t =>
      by_cases hv : isTokenValid now t = true
      · exact ⟨t, rfl, (isTokenValid_iff now t hnow).mp hv⟩
      · exfalso
        rw [Bool.not_eq_true] at hv
        cases fetch with
        | error e => simp [getValidToken, hc, hv] at hok
        | ok u => simp [getValidToken, hc, hv] at hok
  · rintro ⟨t, hc, hlt⟩
    exact ⟨t.access_token, cache, by
      simp [getValidToken, hc, (isTokenValid_iff now t hnow).mpr hlt]⟩
  · intro t hc hlt
    simp [getValidToken, hc, (isTokenValid_iff now t hnow).mpr hlt]
  · intro hmiss t hf
    subst hf
    cases hc : cacheGet cache service with
    | none => simp [getValidToken, hc]
    | some u =>
      have hv : isTokenValid now u = false := by
        rw [← Bool.not_eq_true]
        intro hv
        exact hmiss ⟨u, hc, (isTokenValid_iff now u hnow).mp hv⟩
      simp [getValidToken, hc, hv]

/-- C4 witness: at time 1000 a cached entry expiring at 100000 is served
from the cache with no network request, through the C4 theorem. -/
theorem getValidToken_cache_hit_witness :
    getValidToken 1000 [("default", demoCachedToken)] "default"
      (Except.error "network down") =
      Except.ok ("tok", [("default", demoCachedToken)], false) :=
  (getValidToken_cache_hit_iff 1000 [("default", demoCachedToken)] "default"
    (Except.error "network down") (by decide)).2.1 demoCachedToken rfl (by decide)

/-- C8 counterexample: on the document whose schema `A` is a `$ref` to
itself, resolveSchema completes at no recursion depth whatsoever — it
neither terminates nor surfaces a configuration error, contradicting the
claim (the JS original would die of stack exhaustion, having detected
nothing). -/
theorem resolveSchema_self_cycle_diverges : resolveDiverges cyclicSpec cyclicRefA := by
  intro fuel
  induction fuel with
  | zero => rfl
  | succ n ih =>
    show resolveStep (resolveSchema n cyclicSpec) cyclicSpec cyclicRefA = none
    have href : refField cyclicRefA = some "#/components/schemas/A" := rfl
    have hwalk : walkRef cyclicSpec (splitRef "#/components/schemas/A") = some cyclicRefA := rfl
    simp only [resolveStep, href, hwalk]
    exact ih

/-- C8 (amended): resolveSchema performs no cycle detection — every schema
belonging to a set of nodes closed under one `$ref`-chase step diverges:
resolution completes at no recursion depth, so a cyclic `$ref` chain is
never reported as a configuration error. -/
theorem resolveSchema_cycle_diverges (spec : Json) (cycle : List Json) (s : Json)
    (hs : s ∈ cycle)
    (hstep : ∀ t ∈ cycle, ∃ p u, refField t = some p ∧
      walkRef spec (splitRef p) = some u ∧ u ∈ cycle) :
    resolveDiverges spec s := by
  intro fuel
  induction fuel generalizing s with
  | zero => rfl
  | succ n ih =>
    obtain ⟨p, u, hp, hw, hu⟩ := hstep s hs
    show resolveStep (resolveSchema n spec) spec s = none
    simp only [resolveStep, hp, hw]
    exact ih u hu

/-- C8 witness: the amended theorem applied to the two-node cycle
`#/defs/A → #/defs/B → #/defs/A`. -/
theorem resolveSchema_cycle_diverges_witness : resolveDiverges twoCycleSpec refToB := by
  refine resolveSchema_cycle_diverges twoCycleSpec [refToB, refToA] refToB
    (List.mem_cons_self _ _) ?_
  intro t ht
  rcases List.mem_cons.mp ht with rfl | ht2
  · exact ⟨"#/defs/B", refToA, rfl, rfl, by simp⟩
  · rcases List.mem_cons.mp ht2 with rfl | ht3
    · exact ⟨"#/defs/A", refToB, rfl, rfl, by simp⟩
    · cases ht3

/-- Check phase on `n` fresh callers and an empty cache: every caller
misses and issues its own credential-exchange request. -/
theorem runChecksAux_replicate (n c : Nat) :
    runChecksAux none c (List.replicate n CallerPhase.ready) =
      ((List.range' c n).map CallerPhase.fetching, c + n) := by
  induction n generalizing c with
  | zero => rfl
  | succ m ih =>
    show runChecksAux none c (CallerPhase.ready :: List.replicate m CallerPhase.ready) = _
    simp only [runChecksAux, ih, List.range'_succ, List.map_cons]
    simp only [Prod.mk.injEq]
    exact ⟨trivial, by omega⟩

/-- Resolve phase on pending fetches `s, s+1, …, s+n-1`: each caller
finishes with the token of its own request, the last write staying in the
cache. -/
theorem runResolvesAux_fetching (tokens : Nat → String) (n : Nat) :
    ∀ (s : Nat) (cache : Option String),
    runResolvesAux tokens cache ((List.range' s n).map CallerPhase.fetching) =
      ((List.range' s n).map (fun k => CallerPhase.finished (tokens k)),
        if n = 0 then cache else some (tokens (s + n - 1))) := by
  induction n with
  | zero => intro s cache; rfl
  | succ m ih =>
    intro s cache
    show runResolvesAux tokens cache
      (CallerPhase.fetching s :: (List.range' (s + 1) m).map CallerPhase.fetching) = _
    simp only [runResolvesAux, ih (s + 1) (some (tokens s)), List.range'_succ, List.map_cons]
    simp only [Prod.mk.injEq]
    refine ⟨trivial, ?_⟩
    cases m with
    | zero => simp
    | succ k =>
      have h1 : s + 1 + (k + 1) - 1 = s + (k + 1 + 1) - 1 := by omega
      simp [h1]

/-- C3 counterexample: two concurrent `getValidToken` calls on an empty
cache issue two credential-exchange requests, not one, and the two callers
end with the tokens of their own distinct fetches — `getValidToken` has no
mutual exclusion between its cache check and its cache write. -/
theorem promiseAllRun_two_callers :
    (promiseAllRun (fun k => String.mk (List.replicate (k + 1) 't')) 2).fetchCount = 2 ∧
    (promiseAllRun (fun k => String.mk (List.replicate (k + 1) 't')) 2).callers =
      [CallerPhase.finished "t", CallerPhase.finished "tt"] ∧
    (2 : Nat) ≠ 1 :=
  ⟨rfl, rfl, by decide⟩

/-- C3 (amended): under `Promise.all` of `n` concurrent `getValidToken`
calls for one service with an empty cache, every caller observes the miss
before any write happens, so exactly `n` credential-exchange requests are
issued and each caller returns the token fetched by its own request. -/
theorem promiseAllRun_fetch_per_caller (tokens : Nat → String) (n : Nat) :
    (promiseAllRun tokens n).fetchCount = n ∧
    (promiseAllRun tokens n).callers =
      (List.range n).map (fun k => CallerPhase.finished (tokens k)) := by
  simp only [promiseAllRun, runChecksAux_replicate,
    runResolvesAux_fetching tokens n 0 none]
  rw [List.range_eq_range']
  exact ⟨by omega, rfl⟩

/-- Looking up the key just assigned finds the new value. -/
theorem jsonLookup_setField_self (t : List (String × Json)) (k : String) (v : Json) :
    jsonLookup (setField t k v) k = some v := by
  induction t with
  | nil => simp [setField, jsonLookup]
  | cons kv rest ih =>
    obtain ⟨k2, v2⟩ := kv
    by_cases h : (k2 == k) = true
    · simp [setField, h, jsonLookup]
    · simp [setField, h, jsonLookup, ih]

/-- Assignment to one key does not disturb lookups of another. -/
theorem jsonLookup_setField_other (t : List (String × Json)) (k k' : String) (v : Json)
    (hne : k ≠ k') : jsonLookup (setField t k v) k' = jsonLookup t k' := by
  induction t with
  | nil => simp [setField, jsonLookup, hne]
  | cons kv rest ih =>
    obtain ⟨k2, v2⟩ := kv
    by_cases h : (k2 == k) = true
    · have hk2 : k2 = k := by simpa using h
      subst hk2
      simp [setField, jsonLookup, hne]
    · simp [setField, h, jsonLookup, ih]

/-- Lookup through an append checks the left list first. -/
theorem jsonLookup_append (l1 l2 : List (String × Json)) (k : String) :
    jsonLookup (l1 ++ l2) k =
      match jsonLookup l1 k with
      | some v => some v
      | none => jsonLookup l2 k := by
  induction l1 with
  | nil => simp [jsonLookup]
  | cons kv rest ih =>
    obtain ⟨k2, v2⟩ := kv
    by_cases h : (k2 == k) = true <;> simp [jsonLookup, h, ih]

/-- Lookup after `Object.assign`: the last occurrence in the source wins,
else the target binding survives. -/
theorem jsonLookup_jsAssign (t src : List (String × Json)) (k : String) :
    jsonLookup (jsAssign t src) k =
      match jsonLookup src.reverse k with
      | some v => some v
      | none => jsonLookup t k := by
  induction src generalizing t with
  | nil => simp [jsAssign, jsonLookup]
  | cons kv rest ih =>
    obtain ⟨k0, v0⟩ := kv
    show jsonLookup (jsAssign (setField t k0 v0) rest) k = _
    rw [ih, List.reverse_cons, jsonLookup_append]
    cases hr : jsonLookup rest.reverse k with
    | some v => simp
    | none =>
      by_cases h0 : (k0 == k) = true
      · have hk : k0 = k := by simpa using h0
        subst hk
        simp [jsonLookup, jsonLookup_setField_self]
      · have hne : k0 ≠ k := by simpa using h0
        simp [jsonLookup, h0, jsonLookup_setField_other t k0 k v0 hne]

/-- Lookup through the fold of `Object.assign` over a list of sources:
the value is the last occurrence across the concatenated sources, else the
initial target binding. -/
theorem jsonLookup_assignFold (ls : List (List (String × Json)))
    (t : List (String × Json)) (k : String) :
    jsonLookup (ls.foldl jsAssign t) k =
      match jsonLookup ls.flatten.reverse k with
      | some v => some v
      | none => jsonLookup t k := by
  induction ls generalizing t with
  | nil => simp [jsonLookup]
  | cons l rest ih =>
    show jsonLookup (rest.foldl jsAssign (jsAssign t l)) k = _
    rw [ih, List.flatten_cons, List.reverse_append, jsonLookup_append]
    cases hr : jsonLookup rest.flatten.reverse k with
    | some v => simp
    | none => simp [jsonLookup_jsAssign]

/-- Assigning an absent key appends it (insertion order preserved). -/
theorem setField_append_of_not_mem (t : List (String × Json)) (k : String) (v : Json)
    (h : k ∉ t.map Prod.fst) : setField t k v = t ++ [(k, v)] := by
  induction t with
  | nil => rfl
  | cons kv rest ih =>
    obtain ⟨k2, v2⟩ := kv
    simp only [List.map_cons, List.mem_cons, not_or] at h
    have h1 : (k2 == k) = false := by
      rw [beq_eq_false_iff_ne]
      exact fun he => h.1 he.symm
    simp [setField, h1, ih h.2]

/-- `Object.assign` with key-disjoint source is plain concatenation. -/
theorem jsAssign_append_of_disjoint (t src : List (String × Json))
    (hnd : (src.map Prod.fst).Nodup)
    (hdis : ∀ k ∈ src.map Prod.fst, k ∉ t.map Prod.fst) :
    jsAssign t src = t ++ src := by
  induction src generalizing t with
  | nil => simp [jsAssign]
  | cons kv rest ih =>
    obtain ⟨k0, v0⟩ := kv
    show jsAssign (setField t k0 v0) rest = _
    rw [setField_append_of_not_mem t k0 v0 (hdis k0 (by simp))]
    simp only [List.map_cons, List.nodup_cons] at hnd
    have hdis2 : ∀ k ∈ rest.map Prod.fst, k ∉ (t ++ [(k0, v0)]).map Prod.fst := by
      intro k hk
      simp only [List.map_append, List.mem_append, List.map_cons, List.map_nil,
        List.mem_singleton, not_or]
      refine ⟨hdis k (by simp [hk]), ?_⟩
      intro he
      subst he
      exact hnd.1 hk
    rw [ih (t ++ [(k0, v0)]) hnd.2 hdis2]
    simp

/-- Folding `Object.assign` over sources whose keys are globally distinct
concatenates everything. -/
theorem assignFold_flatten_of_nodup (ls : List (List (String × Json)))
    (t : List (String × Json))
    (hnd : (t.map Prod.fst ++ (ls.map (fun l => l.map Prod.fst)).flatten).Nodup) :
    ls.foldl jsAssign t = t ++ ls.flatten := by
  induction ls generalizing t with
  | nil => simp
  | cons l rest ih =>
    show rest.foldl jsAssign (jsAssign t l) = _
    simp only [List.map_cons, List.flatten_cons] at hnd
    rw [List.nodup_append] at hnd
    obtain ⟨hndt, hndlr, hdisj⟩ := hnd
    rw [List.nodup_append] at hndlr
    obtain ⟨hndl, hndr, hdislr⟩ := hndlr
    rw [jsAssign_append_of_disjoint t l hndl ?hd1]
    case hd1 =>
      intro k hk hkt
      exact hdisj hkt (by simp [hk])
    rw [ih (t ++ l) ?hd2]
    case hd2 =>
      rw [List.map_append, List.nodup_append]
      refine ⟨List.Nodup.append hndt hndl (fun a ha hb => hdisj ha (by simp [hb])), hndr, ?_⟩
      intro a ha hb
      rcases List.mem_append.mp ha with h1 | h2
      · exact hdisj h1 (by simp [hb])
      · exact hdislr h2 hb
    simp [List.flatten_cons]

/-- Sequential allOf combination over already-resolved plain members:
properties accumulate by `Object.assign`, required lists concatenate. -/
theorem combineAllOf_plain (subs : List (List (String × Json) × List String))
    (props : List (String × Json)) (req : List Json) :
    combineAllOf (subs.map (fun s => some (Except.ok (plainSchema s.fst s.snd)))) props req =
      some (Except.ok (mkMerged ((subs.map Prod.fst).foldl jsAssign props)
        (req ++ (subs.map (fun s => s.snd.map Json.str)).flatten))) := by
  induction subs generalizing props req with
  | nil => simp [combineAllOf]
  | cons s rest ih =>
    obtain ⟨p, r⟩ := s
    show combineAllOf (some (Except.ok (plainSchema p r)) :: _) props req = _
    have hp : getField (plainSchema p r) "properties" = some (Json.obj p) := rfl
    have hr : getField (plainSchema p r) "required" = some (Json.arr (r.map Json.str)) := rfl
    simp only [combineAllOf, hp, hr]
    rw [ih]
    simp [List.append_assoc]

/-- C9: resolving a schema whose `allOf` members are plain object schemas
yields the merged `{ type: object, properties, required }` whose properties
are the `Object.assign` union in member order and whose required list is
the order-preserving concatenation of the members' required lists; when
all property names (within and across members) are distinct, the merged
property count is the sum of the members' property counts; and for every
key, the merged value is the last occurrence across the members — later
members override earlier ones on collision. -/
theorem resolveSchema_allOf_merge (spec : Json)
    (subs : List (List (String × Json) × List String)) :
    resolveSchema 2 spec (allOfSchema subs) =
      some (Except.ok (mkMerged (mergedPropsOf subs) (mergedReqOf subs))) ∧
    (((subs.map (fun s => s.fst.map Prod.fst)).flatten.Nodup →
      (mergedPropsOf subs).length = (subs.map (fun s => s.fst.length)).sum) ∧
    (∀ k, jsonLookup (mergedPropsOf subs) k =
      jsonLookup ((subs.map Prod.fst).flatten).reverse k)) := by
  refine ⟨?_, ?_, ?_⟩
  · show resolveStep (resolveSchema 1 spec) spec (allOfSchema subs) = _
    have h1 : refField (allOfSchema subs) = none := rfl
    have h2 : allOfField (allOfSchema subs) =
      some (subs.map (fun s => plainSchema s.fst s.snd)) := rfl
    simp only [resolveStep, h1, h2, List.map_map]
    have h3 : (resolveSchema 1 spec) ∘ (fun s => plainSchema s.fst s.snd) =
        (fun s : List (String × Json) × List String =>
          some (Except.ok (plainSchema s.fst s.snd))) := by
      funext s
      rfl
    rw [h3, combineAllOf_plain]
    rfl
  · intro hnd
    have h4 : mergedPropsOf subs = (subs.map Prod.fst).flatten := by
      have := assignFold_flatten_of_nodup (subs.map Prod.fst) [] ?h5
      case h5 =>
        simp only [List.map_nil, List.nil_append, List.map_map]
        have hcomp : (fun l : List (String × Json) => l.map Prod.fst) ∘ Prod.fst =
            (fun s : List (String × Json) × List String => s.fst.map Prod.fst) := rfl
        rw [hcomp]
        exact hnd
      simpa [mergedPropsOf] using this
    rw [h4, List.length_flatten, List.map_map]
    rfl
  · intro k
    have := jsonLookup_assignFold (subs.map Prod.fst) [] k
    rw [mergedPropsOf, this]
    cases jsonLookup ((subs.map Prod.fst).flatten).reverse k <;> simp [jsonLookup]

/-- C9 witness: the theorem applied to two members with disjoint property
names, whose merged property count is the sum of the member counts. -/
theorem resolveSchema_allOf_merge_witness :
    (mergedPropsOf demoSubs).length = (demoSubs.map (fun s => s.fst.length)).sum :=
  (resolveSchema_allOf_merge (Json.obj []) demoSubs).2.1 (by decide)

/-- C2: at the concrete failing input — a POST tool with a declared query
parameter `filter` and body parameter `name`, invoked with both — the
handler passes `filter` in `options.params`, but the client's URL builder
appends `params` only for GET, so the issued URL for the POST carries no
query string at all: the claim that non-GET requests place query
parameters in the URL is false on this code path. -/
theorem callTool_post_drops_query :
    (callTool (fun _ => none) "/auth/token"
        [[("filter", Json.str "x"), ("name", Json.str "y")]] c2tool 0).snd =
      CallOutcome.apiCall "/users" "POST" (some [("filter", Json.str "x")])
        (some (Json.obj [("name", Json.str "y")])) none ∧
    requestUrl "https://api.example.com" "/users" "POST"
      (some [("filter", Json.str "x")]) = "https://api.example.com/users" ∧
    stringIncludes (requestUrl "https://api.example.com" "/users" "POST"
      (some [("filter", Json.str "x")])) "filter" = false :=
  ⟨rfl, rfl, rfl⟩

/-- C6 counterexample: a POST tool with no declared body parameters whose
arguments carry an array-valued `fields` plus another non-path argument
`note`: the fallback first places both in the body bucket, but the
direct-array replacement then makes the payload the bare array, silently
dropping `note` — so not every remaining non-path argument reaches the
request body. -/
theorem callTool_fields_array_drops_args :
    (callTool (fun _ => none) "/auth/token"
        [[("fields", Json.arr [Json.str "a"]), ("note", Json.str "n")]] c6tool 0).snd =
      CallOutcome.apiCall "/items" "POST" none (some (Json.arr [Json.str "a"])) none ∧
    getField (Json.arr [Json.str "a"]) "note" = none :=
  ⟨rfl, rfl⟩

/-- Keys not named in the arguments pass through the fallback loop. -/
theorem argsFold_lookup_of_not_mem (skip : String → Bool) (f : Json → Json)
    (args : List (String × Json)) (k : String) :
    ∀ acc, k ∉ args.map Prod.fst →
      jsonLookup (argsFold skip f acc args) k = jsonLookup acc k := by
  induction args with
  | nil => intro acc _; rfl
  | cons kv rest ih =>
    intro acc h
    obtain ⟨k0, v0⟩ := kv
    simp only [List.map_cons, List.mem_cons, not_or] at h
    by_cases hs : skip k0 = true
    · simp [argsFold, hs, ih _ h.2]
    · simp [argsFold, hs, ih _ h.2,
        jsonLookup_setField_other acc k0 k (f v0) (fun he => h.1 he.symm)]

/-- An argument whose key is not skipped lands in the fallback bucket with
the processed value. -/
theorem argsFold_lookup_mem (skip : String → Bool) (f : Json → Json)
    (args : List (String × Json)) (k : String) (v : Json) (hs : skip k = false) :
    ∀ acc, (args.map Prod.fst).Nodup → (k, v) ∈ args →
      jsonLookup (argsFold skip f acc args) k = some (f v) := by
  induction args with
  | nil => intro acc _ hmem; cases hmem
  | cons kv rest ih =>
    intro acc hnd hmem
    obtain ⟨k0, v0⟩ := kv
    simp only [List.map_cons, List.nodup_cons] at hnd
    rcases List.mem_cons.mp hmem with heq | hmem2
    · have hk : k = k0 := congrArg Prod.fst heq
      have hv : v = v0 := congrArg Prod.snd heq
      subst hk
      subst hv
      simp only [argsFold, hs, Bool.false_eq_true, if_false]
      rw [argsFold_lookup_of_not_mem skip f rest k (setField acc k (f v)) hnd.1]
      exact jsonLookup_setField_self acc k (f v)
    · by_cases hs0 : skip k0 = true
      · simp [argsFold, hs0, ih _ hnd.2 hmem2]
      · simp [argsFold, hs0, ih _ hnd.2 hmem2]

/-- Without an array-valued `body` or `fields` key the direct-array
replacement leaves the bucket as the object payload. -/
theorem bodyJsonOf_no_array (B : List (String × Json))
    (h1 : isArrayValue (jsonLookup B "body") = false)
    (h2 : isArrayValue (jsonLookup B "fields") = false) :
    bodyJsonOf B = Json.obj B := by
  unfold bodyJsonOf
  cases hb : jsonLookup B "body" with
  | some vb =>
    rw [hb] at h1
    cases hf : jsonLookup B "fields" with
    | some vf =>
      rw [hf] at h2
      cases vb <;> cases vf <;> simp_all [isArrayValue]
    | none => cases vb <;> simp_all [isArrayValue]
  | none =>
    cases hf : jsonLookup B "fields" with
    | some vf =>
      rw [hf] at h2
      cases vf <;> simp_all [isArrayValue]
    | none => rfl

/-- C6 (amended): for a non-GET tool declaring no body parameters, every
argument whose key is neither a declared path parameter nor a template
placeholder is placed in the body bucket under its key, with the
JSON-string convenience transform applied to its value; and as long as the
resulting bucket holds no array-valued `body` or `fields` key, the whole
bucket is the request payload (otherwise the direct-array replacement
substitutes that array and the other arguments are dropped). -/
theorem callTool_body_fallback (parseJson : String → Option Json) (tool : MCPToolDef)
    (ep : String) (args : List (String × Json)) (k : String) (v : Json)
    (hbp : tool.bodyParams = none ∨ tool.bodyParams = some [])
    (hm : (methodOf tool == "GET") = false)
    (hnd : (args.map Prod.fst).Nodup)
    (hmem : (k, v) ∈ args)
    (hskip : skipAsPathParam tool ep k = false) :
    jsonLookup (bodyBucketOf parseJson tool ep args) k =
      some (jsonProcess parseJson v) ∧
    (isArrayValue (jsonLookup (bodyBucketOf parseJson tool ep args) "body") = false →
      isArrayValue (jsonLookup (bodyBucketOf parseJson tool ep args) "fields") = false →
      bodyJsonOf (bodyBucketOf parseJson tool ep args) =
        Json.obj (bodyBucketOf parseJson tool ep args)) := by
  have hb0 : declaredBodyBucket parseJson tool args = [] := by
    rcases hbp with h | h <;> simp [declaredBodyBucket, h]
  have hbucket : bodyBucketOf parseJson tool ep args =
      argsFold (skipAsPathParam tool ep) (jsonProcess parseJson) [] args := by
    simp [bodyBucketOf, hb0, hm]
  refine ⟨?_, fun h1 h2 => bodyJsonOf_no_array _ h1 h2⟩
  rw [hbucket]
  exact argsFold_lookup_mem _ _ args k v hskip [] hnd hmem

/-- C6 witness: the amended theorem applied to a POST tool with a template
placeholder `id` and arguments `{id, note}` — `note` is present in the
body bucket with its (unchanged) processed value. -/
theorem callTool_body_fallback_witness :
    jsonLookup (bodyBucketOf (fun _ => none) c6amendTool "/things/\x7bid\x7d"
        [("id", Json.str "7"), ("note", Json.str "n")]) "note" =
      some (jsonProcess (fun _ => none) (Json.str "n")) :=
  (callTool_body_fallback (fun _ => none) c6amendTool "/things/\x7bid\x7d"
    [("id", Json.str "7"), ("note", Json.str "n")] "note" (Json.str "n")
    (Or.inl rfl) rfl (by decide) (by simp) rfl).1

/-- Updating one heap slot leaves the others unchanged. -/
theorem hget_hset_ne (h : JsHeap) (r r' : Nat) (o : List (String × Json))
    (hne : r ≠ r') : hget (hset h r o) r' = hget h r' := by
  simp [hget, hset, List.getElem?_set_ne hne]

/-- The placeholder-substitution loop mutates only the object it was
handed: every other heap slot is unchanged. -/
theorem buildEndpointAux_preserves (keys : List String) :
    ∀ (h : JsHeap) (r : Nat) (ep : String) (r' : Nat), r' ≠ r →
      hget (buildEndpointAux keys h r ep).fst r' = hget h r' := by
  induction keys with
  | nil => intro h r ep r' _; rfl
  | cons key rest ih =>
    intro h r ep r' hne
    by_cases hc : stringIncludes ep ("\x7b" ++ key ++ "\x7d") = true
    · simp only [buildEndpointAux, hc, if_true]
      rw [ih _ r _ r' hne]
      exact hget_hset_ne h r r' _ (fun he => hne he.symm)
    · simp only [buildEndpointAux, hc, Bool.false_eq_true, if_false]
      exact ih h r ep r' hne

/-- C10: callTool leaves the caller's arguments object untouched — the
placeholder substitution copies the arguments (`{ ...args }`) and deletes
substituted keys only from that copy, so after the call the heap slot of
the caller's object holds exactly what it held before. -/
theorem callTool_preserves_args (parseJson : String → Option Json) (authPath : String)
    (h : JsHeap) (tool : MCPToolDef) (rArgs : Nat) (hr : rArgs < h.length) :
    hget (callTool parseJson authPath h tool rArgs).fst rArgs = hget h rArgs := by
  unfold callTool
  by_cases hh : tool.hasHandler = true
  · simp [hh]
  · simp only [hh, Bool.false_eq_true, if_false]
    cases hep : tool.apiEndpoint with
    | none => rfl
    | some ep =>
      by_cases he : (ep == "") = true
      · simp [he]
      · simp only [he, Bool.false_eq_true, if_false]
        show hget (buildEndpoint (halloc h (hget h rArgs)).fst ep
          (halloc h (hget h rArgs)).snd).fst rArgs = hget h rArgs
        rw [buildEndpoint]
        rw [buildEndpointAux_preserves _ _ _ _ rArgs (by simp [halloc]; omega)]
        simp only [halloc]
        simp [hget, List.getElem?_append_left hr]

/-- C10 witness: the theorem applied to a GET tool whose `{id}` placeholder
is substituted (and deleted from the internal copy); the caller's object
still holds both `id` and `note` afterwards. -/
theorem callTool_preserves_args_witness :
    hget (callTool (fun _ => none) "/auth/token"
        [[("id", Json.str "42"), ("note", Json.str "tags")]] c10tool 0).fst 0 =
      [("id", Json.str "42"), ("note", Json.str "tags")] :=
  (callTool_preserves_args (fun _ => none) "/auth/token"
    [[("id", Json.str "42"), ("note", Json.str "tags")]] c10tool 0 (by decide)).trans rfl
